import Mathlib

/-!
Verification development for the proxy-browser gateway.

Each definition below is a shallow embedding of a function of the source
repository (file and line references are given in the doc comments).
Machine state (the sticky-session map, the browser pool, the rate-limiter
windows) is passed explicitly; Python dictionaries become either
association lists (when iteration order matters) or functions into
`Option`; timestamps are rationals (seconds).
-/

set_option maxHeartbeats 1000000
set_option maxRecDepth 4000

namespace ProxyBrowser

/-- Truthiness of an optional string as Python evaluates `if session_id:`:
`None` and the empty string are falsy. -/
def optTruthy : Option String → Bool
  | none => false
  | some s => s != ""

/-- The fields of `Settings` (src/config/settings.py, lines 28-51 and 103-107)
read by the functions embedded below, with their source default values. -/
structure Settings where
  proxy_provider : String := "proxi.es"
  proxy_username : String := ""
  proxy_password : String := ""
  proxy_server : String := "pg.proxi.es:20002"
  proxy_type : String := "socks5"
  proxy_ports : List (String × Nat) := [("http", 20000), ("socks5", 20002), ("socks4", 20001)]
  proxy_country : String := "USA"
  proxy_state : Option String := some "NY"
  proxy_city : Option String := some "NewYorkCity"
  proxy_rotation_type : String := "sticky"
  proxy_sticky_sessions : List String :=
    ["Ecnik5GaH8", "sIIpXRcoJm", "PKzbgWiczO", "rigPetKxvi", "dfYwJRS5J6",
     "0Q3PIsLv3B", "E6QemYEknm", "I0NDGemp3n", "hTljfkAsu0", "UXTxtJog62"]

/-- Mutable state of `ProxyConfig` (src/config/settings.py lines 170-173):
`_session_sticky_map` and `_sticky_index`. -/
structure ProxyConfigState where
  sessionStickyMap : String → Option String
  stickyIndex : Nat

/-- The fresh `ProxyConfig` state (src/config/settings.py lines 170-173). -/
def ProxyConfigState.init : ProxyConfigState :=
  { sessionStickyMap := fun _ => none, stickyIndex := 0 }

/-- src/config/settings.py lines 179-188: for provider "proxidise" the server
port is replaced by the port mapped to the proxy type. -/
def proxidiseServer (st : Settings) : String :=
  if st.proxy_provider = "proxidise" ∧ (List.lookup st.proxy_type st.proxy_ports).isSome then
    (st.proxy_server.splitOn ":").headD "" ++ ":" ++
      toString ((List.lookup st.proxy_type st.proxy_ports).getD 0)
  else st.proxy_server

/-- src/config/settings.py lines 208-213 (and identically 218-224): the
country/state/city targeting components appended to the username. -/
def targetingParts (st : Settings) : List String :=
  (if st.proxy_country ≠ "" then ["co-" ++ st.proxy_country] else []) ++
  (match st.proxy_state with
    | some s => if s ≠ "" then ["st-" ++ s] else []
    | none => []) ++
  (match st.proxy_city with
    | some c => if c ≠ "" then ["ci-" ++ c] else []
    | none => [])

/-- The sticky token `get_proxy_url` draws on a first resolution
(src/config/settings.py lines 196-198): the pool entry at `_sticky_index`
modulo the pool size. -/
def roundRobinToken (st : Settings) (σ : ProxyConfigState) : String :=
  (st.proxy_sticky_sessions[σ.stickyIndex % st.proxy_sticky_sessions.length]?).getD ""

/-- src/config/settings.py lines 194-201: on first resolution of a session the
next sticky token of the pool is chosen round-robin (`_sticky_index` modulo the
pool size), the mapping is recorded, and the index incremented. -/
def stickyAssign (st : Settings) (σ : ProxyConfigState) (sid : String) : ProxyConfigState :=
  if σ.sessionStickyMap sid = none then
    { sessionStickyMap := fun k =>
        if k = sid then some (roundRobinToken st σ) else σ.sessionStickyMap k,
      stickyIndex := σ.stickyIndex + 1 }
  else σ

/-- src/config/settings.py lines 238-244: scheme selection for the returned
proxy URL. -/
def proxyUrlFor (st : Settings) (username server : String) : String :=
  if st.proxy_type.toLower = "socks5" then
    "socks5://" ++ username ++ ":" ++ st.proxy_password ++ "@" ++ server
  else if st.proxy_type.toLower = "socks4" then
    "socks4://" ++ username ++ ":" ++ st.proxy_password ++ "@" ++ server
  else
    "http://" ++ username ++ ":" ++ st.proxy_password ++ "@" ++ server

/-- `ProxyConfig.get_proxy_url` (src/config/settings.py lines 175-244), with
the object state passed and returned explicitly. -/
def getProxyUrl (st : Settings) (σ : ProxyConfigState) (sessionId : Option String) :
    String × ProxyConfigState :=
  let server := proxidiseServer st
  if st.proxy_provider = "proxidise" then
    if optTruthy sessionId ∧ st.proxy_rotation_type = "sticky" then
      let sid := sessionId.getD ""
      let σ' := stickyAssign st σ sid
      let stickyId := (σ'.sessionStickyMap sid).getD ""
      let username :=
        String.intercalate "-" ([st.proxy_username, "s-" ++ stickyId] ++ targetingParts st)
      (proxyUrlFor st username server, σ')
    else
      let username := String.intercalate "-" ([st.proxy_username] ++ targetingParts st)
      (proxyUrlFor st username server, σ)
  else
    let username :=
      if optTruthy sessionId ∧ st.proxy_rotation_type = "sticky" then
        st.proxy_username ++ "-session-" ++ sessionId.getD ""
      else st.proxy_username
    let username :=
      if st.proxy_country ≠ "" then username ++ "-country-" ++ st.proxy_country else username
    let username :=
      match st.proxy_city with
      | some c => if c ≠ "" then username ++ "-city-" ++ c else username
      | none => username
    (proxyUrlFor st username server, σ)

/-- The proxy URL `get_proxy_url` builds for provider "proxidise" in sticky
mode once the sticky token of the session is known. -/
def stickyUrlOf (st : Settings) (tok : String) : String :=
  proxyUrlFor st
    (String.intercalate "-" ([st.proxy_username, "s-" ++ tok] ++ targetingParts st))
    (proxidiseServer st)

/-- Folding `get_proxy_url` over a list of (optional) session identifiers,
keeping only the final state. -/
def runCalls (st : Settings) (σ : ProxyConfigState) (calls : List (Option String)) :
    ProxyConfigState :=
  calls.foldl (fun σ c => (getProxyUrl st σ c).2) σ

lemma stickyAssign_map_preserved (st : Settings) (σ : ProxyConfigState) (sid S : String)
    (h : σ.sessionStickyMap S ≠ none) :
    (stickyAssign st σ sid).sessionStickyMap S = σ.sessionStickyMap S := by
  unfold stickyAssign
  by_cases hn : σ.sessionStickyMap sid = none
  · rw [if_pos hn]
    by_cases hS : S = sid
    · subst hS; exact absurd hn h
    · simp [hS]
  · rw [if_neg hn]

lemma stickyAssign_of_some (st : Settings) (σ : ProxyConfigState) (sid tok : String)
    (h : σ.sessionStickyMap sid = some tok) :
    stickyAssign st σ sid = σ := by
  unfold stickyAssign
  simp [h]

lemma stickyAssign_of_none (st : Settings) (σ : ProxyConfigState) (sid : String)
    (h : σ.sessionStickyMap sid = none) :
    (stickyAssign st σ sid).sessionStickyMap sid = some (roundRobinToken st σ) ∧
    (stickyAssign st σ sid).stickyIndex = σ.stickyIndex + 1 := by
  unfold stickyAssign
  simp [h]

/-- The state returned by `get_proxy_url`: the sticky map is touched only in
the proxidise sticky branch, through `stickyAssign`. -/
lemma getProxyUrl_state (st : Settings) (σ : ProxyConfigState) (c : Option String) :
    (getProxyUrl st σ c).2 =
      if st.proxy_provider = "proxidise" ∧
          (optTruthy c = true ∧ st.proxy_rotation_type = "sticky") then
        stickyAssign st σ (c.getD "")
      else σ := by
  unfold getProxyUrl
  by_cases h1 : st.proxy_provider = "proxidise"
  · by_cases h2 : optTruthy c = true ∧ st.proxy_rotation_type = "sticky"
    · simp [h1, h2]
    · simp only [h1, if_true, eq_self_iff_true, true_and]
      rw [if_neg, if_neg h2]
      exact fun hc => h2 ⟨hc.1, hc.2⟩
  · simp [h1]

lemma getProxyUrl_map_preserved (st : Settings) (σ : ProxyConfigState) (c : Option String)
    (S : String) (h : σ.sessionStickyMap S ≠ none) :
    ((getProxyUrl st σ c).2).sessionStickyMap S = σ.sessionStickyMap S := by
  rw [getProxyUrl_state]
  split
  · exact stickyAssign_map_preserved st σ _ S h
  · rfl

lemma runCalls_map_preserved (st : Settings) (σ : ProxyConfigState) (S : String)
    (calls : List (Option String)) (h : σ.sessionStickyMap S ≠ none) :
    (runCalls st σ calls).sessionStickyMap S = σ.sessionStickyMap S := by
  induction calls generalizing σ with
  | nil => rfl
  | cons c cs ih =>
    have h1 := getProxyUrl_map_preserved st σ c S h
    have h2 : ((getProxyUrl st σ c).2).sessionStickyMap S ≠ none := by rw [h1]; exact h
    calc (runCalls st σ (c :: cs)).sessionStickyMap S
        = (runCalls st (getProxyUrl st σ c).2 cs).sessionStickyMap S := rfl
      _ = ((getProxyUrl st σ c).2).sessionStickyMap S := ih _ h2
      _ = σ.sessionStickyMap S := h1

/-- `get_proxy_url` in the proxidise sticky branch, an equation: it assigns
(when needed) through `stickyAssign` and returns the URL built from the
session's sticky token. -/
lemma getProxyUrl_proxidise_sticky (st : Settings) (σ : ProxyConfigState) (S : String)
    (hprov : st.proxy_provider = "proxidise")
    (hrot : st.proxy_rotation_type = "sticky") (hS : S ≠ "") :
    getProxyUrl st σ (some S) =
      (stickyUrlOf st (((stickyAssign st σ S).sessionStickyMap S).getD ""),
       stickyAssign st σ S) := by
  have ht : optTruthy (some S) = true := by
    simp [optTruthy, hS]
  unfold getProxyUrl stickyUrlOf
  simp [hprov, hrot, ht]

/-- C1: with provider "proxidise" and sticky rotation, the first
`get_proxy_url` call for a session S draws the pool token at the current
round-robin index (index taken modulo pool size, then incremented) and records
the mapping; after any interleaved sequence of further calls, every subsequent
call for S returns the same token's proxy URL and leaves the state unchanged. -/
theorem sticky_resolution_stable (st : Settings) (σ0 : ProxyConfigState) (S : String)
    (hprov : st.proxy_provider = "proxidise")
    (hrot : st.proxy_rotation_type = "sticky")
    (hS : S ≠ "")
    (hpool : st.proxy_sticky_sessions ≠ [])
    (hnew : σ0.sessionStickyMap S = none) :
    roundRobinToken st σ0 ∈ st.proxy_sticky_sessions ∧
    (getProxyUrl st σ0 (some S)).1 = stickyUrlOf st (roundRobinToken st σ0) ∧
    ((getProxyUrl st σ0 (some S)).2).sessionStickyMap S = some (roundRobinToken st σ0) ∧
    ((getProxyUrl st σ0 (some S)).2).stickyIndex = σ0.stickyIndex + 1 ∧
    ∀ calls : List (Option String),
      getProxyUrl st (runCalls st (getProxyUrl st σ0 (some S)).2 calls) (some S) =
        (stickyUrlOf st (roundRobinToken st σ0),
         runCalls st (getProxyUrl st σ0 (some S)).2 calls) := by
  have hlen : 0 < st.proxy_sticky_sessions.length := List.length_pos.mpr hpool
  have hidx : σ0.stickyIndex % st.proxy_sticky_sessions.length <
      st.proxy_sticky_sessions.length := Nat.mod_lt _ hlen
  have hmem : roundRobinToken st σ0 ∈ st.proxy_sticky_sessions := by
    unfold roundRobinToken
    rw [List.getElem?_eq_getElem hidx]
    exact List.getElem_mem hidx
  have hassign := stickyAssign_of_none st σ0 S hnew
  have heq := getProxyUrl_proxidise_sticky st σ0 S hprov hrot hS
  have hmapS : ((getProxyUrl st σ0 (some S)).2).sessionStickyMap S
      = some (roundRobinToken st σ0) := by
    rw [heq]; exact hassign.1
  have hurl : (getProxyUrl st σ0 (some S)).1 = stickyUrlOf st (roundRobinToken st σ0) := by
    rw [heq]
    simp only [hassign.1, Option.getD_some]
  refine ⟨hmem, hurl, hmapS, ?_, ?_⟩
  · rw [heq]; exact hassign.2
  · intro calls
    have hkeep : (runCalls st (getProxyUrl st σ0 (some S)).2 calls).sessionStickyMap S
        = some (roundRobinToken st σ0) := by
      rw [runCalls_map_preserved st _ S calls (by rw [hmapS]; exact Option.some_ne_none _),
        hmapS]
    have hfix := stickyAssign_of_some st _ S _ hkeep
    rw [getProxyUrl_proxidise_sticky st _ S hprov hrot hS, hfix, hkeep]
    rfl

/-- Concrete settings with provider "proxidise" and the source defaults for
every other field (sticky rotation, the ten-token pool). -/
def settingsProxidise : Settings := { proxy_provider := "proxidise" }

/-- Witness for C1 at concrete inputs: the fresh state, session "s1", with two
interleaved calls for other sessions before the repeat resolution. -/
theorem sticky_resolution_stable_witness :
    (getProxyUrl settingsProxidise ProxyConfigState.init (some "s1")).1 =
      stickyUrlOf settingsProxidise (roundRobinToken settingsProxidise ProxyConfigState.init) ∧
    getProxyUrl settingsProxidise
        (runCalls settingsProxidise
          (getProxyUrl settingsProxidise ProxyConfigState.init (some "s1")).2
          [some "s2", none, some "s3"])
        (some "s1") =
      (stickyUrlOf settingsProxidise (roundRobinToken settingsProxidise ProxyConfigState.init),
       runCalls settingsProxidise
         (getProxyUrl settingsProxidise ProxyConfigState.init (some "s1")).2
         [some "s2", none, some "s3"]) := by
  have h := sticky_resolution_stable settingsProxidise ProxyConfigState.init "s1"
    rfl rfl (by decide) (by decide) rfl
  exact ⟨h.2.1, h.2.2.2.2 [some "s2", none, some "s3"]⟩

/-! ### Rate limiter (src/app/middleware/rate_limiter.py)

Timestamps are rationals measured in seconds.  The per-client state is the
request-history window plus the optional block-until timestamp. -/

/-- Per-client rate-limiter state: `request_history[client]` and
`blocked_until[client]` (src/app/middleware/rate_limiter.py lines 23-24). -/
structure RLState where
  history : List ℚ
  blockedUntil : Option ℚ
deriving DecidableEq

/-- Outcome of one `dispatch` call for the rate-limited client:
admission with the remaining quota, an unconditional rejection while blocked
(with the reported remaining seconds), or a window rejection (which reports a
retry-after of 60 seconds). -/
inductive RLResult where
  | ok (remaining : Nat)
  | rejectedBlocked (retryAfter : ℤ)
  | rejectedLimit (retryAfter : Nat)
deriving DecidableEq

/-- `RateLimiterMiddleware._check_rate_limit`
(src/app/middleware/rate_limiter.py lines 94-121): purge entries older than one
minute from the front of the deque, reject when the 5-second burst count
reaches the burst size or the window count reaches the per-minute limit,
otherwise append the current timestamp.  Returns
(is_allowed, remaining, new history). -/
def checkRateLimit (rpm burst : Nat) (now : ℚ) (history : List ℚ) :
    Bool × Nat × List ℚ :=
  let history := history.dropWhile (fun ts => ts < now - 60)
  let burstCount := (history.filter (fun ts => now - 5 < ts)).length
  if burst ≤ burstCount then
    (false, 0, history)
  else if rpm ≤ history.length then
    (false, 0, history)
  else
    (true, rpm - (history.length + 1), history ++ [now])

/-- The window-check half of `RateLimiterMiddleware.dispatch`
(src/app/middleware/rate_limiter.py lines 61-92): on rejection the client is
blocked for 60 seconds and the response reports `retry_after` 60. -/
def dispatchCheck (rpm burst : Nat) (σ : RLState) (now : ℚ) : RLResult × RLState :=
  let r := checkRateLimit rpm burst now σ.history
  if r.1 then
    (RLResult.ok r.2.1, { σ with history := r.2.2 })
  else
    (RLResult.rejectedLimit 60, { history := r.2.2, blockedUntil := some (now + 60) })

/-- `RateLimiterMiddleware.dispatch` (src/app/middleware/rate_limiter.py lines
31-92) for one client: while blocked, reject unconditionally with the remaining
seconds; an expired block is removed and the window check runs. -/
def dispatch (rpm burst : Nat) (σ : RLState) (now : ℚ) : RLResult × RLState :=
  match σ.blockedUntil with
  | some bu =>
    if now < bu then
      (RLResult.rejectedBlocked ⌊bu - now⌋, σ)
    else
      dispatchCheck rpm burst { σ with blockedUntil := none } now
  | none => dispatchCheck rpm burst σ now

/-- A sequence of requests from the one client at the given timestamps. -/
def runRL (rpm burst : Nat) (σ : RLState) (ts : List ℚ) : List RLResult × RLState :=
  match ts with
  | [] => ([], σ)
  | t :: rest =>
    let r := dispatch rpm burst σ t
    let rs := runRL rpm burst r.2 rest
    (r.1 :: rs.1, rs.2)

lemma dropWhile_eq_self_of_not_head {p : ℚ → Bool} {l : List ℚ}
    (h : ∀ x ∈ l, ¬ p x = true) : l.dropWhile p = l := by
  cases l with
  | nil => rfl
  | cons x xs =>
    rw [List.dropWhile_cons, if_neg (h x (List.mem_cons_self x xs))]

/-- One admitted request: with no block, fewer than `burst` (and `rpm`) recent
entries, and nothing old enough to purge, `dispatch` admits and appends the
timestamp. -/
lemma dispatch_admit (rpm burst : Nat) (h : List ℚ) (t : ℚ)
    (hpurge : ∀ x ∈ h, ¬(x < t - 60))
    (hb : h.length < burst) (hr : h.length < rpm) :
    dispatch rpm burst ⟨h, none⟩ t =
      (RLResult.ok (rpm - (h.length + 1)), ⟨h ++ [t], none⟩) := by
  have hdrop : h.dropWhile (fun ts => ts < t - 60) = h :=
    dropWhile_eq_self_of_not_head (fun x hx => by simpa using hpurge x hx)
  have hfle : (h.filter (fun ts => t - 5 < ts)).length ≤ h.length :=
    List.length_filter_le _ _
  have hcheck : checkRateLimit rpm burst t h = (true, rpm - (h.length + 1), h ++ [t]) := by
    simp only [checkRateLimit, hdrop]
    rw [if_neg (by omega), if_neg (by omega)]
  simp only [dispatch, dispatchCheck, hcheck]
  simp

/-- One rejected request: when every window entry is within the burst window
and the burst size is reached, `dispatch` rejects with retry-after 60 and sets
the block-until timestamp 60 seconds ahead, appending nothing. -/
lemma dispatch_burst_reject (rpm burst : Nat) (h : List ℚ) (t : ℚ)
    (hpurge : ∀ x ∈ h, ¬(x < t - 60))
    (hrecent : ∀ x ∈ h, t - 5 < x)
    (hlen : burst ≤ h.length) :
    dispatch rpm burst ⟨h, none⟩ t =
      (RLResult.rejectedLimit 60, ⟨h, some (t + 60)⟩) := by
  have hdrop : h.dropWhile (fun ts => ts < t - 60) = h :=
    dropWhile_eq_self_of_not_head (fun x hx => by simpa using hpurge x hx)
  have hfilter : h.filter (fun ts => t - 5 < ts) = h :=
    List.filter_eq_self.mpr (fun x hx => by simpa using hrecent x hx)
  have hcheck : checkRateLimit rpm burst t h = (false, 0, h) := by
    simp only [checkRateLimit, hdrop, hfilter]
    rw [if_pos (by omega)]
  simp only [dispatch, dispatchCheck, hcheck]
  simp

/-- Every request of a short enough, small enough batch is admitted, each
appending its timestamp. -/
lemma runRL_admits (rpm burst : Nat) (pre ts : List ℚ)
    (H : ∀ a ∈ pre ++ ts, ∀ b ∈ pre ++ ts, a - b ≤ 60)
    (hb : pre.length + ts.length ≤ burst) (hr : pre.length + ts.length ≤ rpm) :
    ∃ rs, runRL rpm burst ⟨pre, none⟩ ts = (rs, ⟨pre ++ ts, none⟩) ∧
      rs.length = ts.length ∧ ∀ r ∈ rs, ∃ m, r = RLResult.ok m := by
  induction ts generalizing pre with
  | nil => exact ⟨[], by simp [runRL], rfl, by simp⟩
  | cons t rest ih =>
    have ht : t ∈ pre ++ t :: rest := by simp
    have hstep := dispatch_admit rpm burst pre t
      (fun x hx => by
        have := H t ht x (List.mem_append.mpr (Or.inl hx))
        linarith)
      (by simp at hb; omega) (by simp at hr; omega)
    have H' : ∀ a ∈ (pre ++ [t]) ++ rest, ∀ b ∈ (pre ++ [t]) ++ rest, a - b ≤ 60 := by
      intro a ha b hbmem
      rw [List.append_assoc, List.singleton_append] at ha hbmem
      exact H a ha b hbmem
    obtain ⟨rs, hrun, hlen, hok⟩ := ih (pre ++ [t])
      H' (by simp at hb ⊢; omega) (by simp at hr ⊢; omega)
    refine ⟨RLResult.ok (rpm - (pre.length + 1)) :: rs, ?_, by simp [hlen], ?_⟩
    · show (let r := dispatch rpm burst ⟨pre, none⟩ t
            let rs' := runRL rpm burst r.2 rest
            (r.1 :: rs'.1, rs'.2)) = _
      rw [hstep]
      simp only [hrun, List.append_assoc, List.singleton_append]
    · intro r hrmem
      rcases List.mem_cons.mp hrmem with h1 | h1
      · exact ⟨_, h1⟩
      · exact hok r h1

/-- C5: with requests-per-minute 100 and burst size 20, twenty requests of one
client within one second are all admitted (each appending its timestamp), and a
21st request anywhere within the same 5-second burst window (every batch
timestamp still strictly inside `(t21 - 5, ∞)`) is rejected with retry-after
60, the block-until timestamp being set 60 seconds in the future. -/
theorem rate_limiter_burst_contract (h20 : List ℚ) (t21 : ℚ)
    (hlen : h20.length = 20)
    (hbatch : ∀ a ∈ h20, ∀ b ∈ h20, a - b ≤ 1)
    (hwindow : ∀ x ∈ h20, t21 - 5 < x) :
    ∃ rs, runRL 100 20 ⟨[], none⟩ (h20 ++ [t21]) =
        (rs ++ [RLResult.rejectedLimit 60], ⟨h20, some (t21 + 60)⟩) ∧
      rs.length = 20 ∧ ∀ r ∈ rs, ∃ m, r = RLResult.ok m := by
  have H60 : ∀ a ∈ ([] : List ℚ) ++ h20, ∀ b ∈ ([] : List ℚ) ++ h20, a - b ≤ 60 := by
    intro a ha b hbmem
    rw [List.nil_append] at ha hbmem
    have := hbatch a ha b hbmem
    linarith
  obtain ⟨rs, hrun, hrslen, hok⟩ := runRL_admits 100 20 [] h20 H60 (by simp [hlen])
    (by simp [hlen])
  rw [List.nil_append] at hrun
  have hreject := dispatch_burst_reject 100 20 h20 t21
    (fun x hx => by
      have := hwindow x hx
      linarith)
    (fun x hx => hwindow x hx)
    (by omega)
  refine ⟨rs, ?_, by rw [hrslen, hlen], hok⟩
  have happ : ∀ (σ : RLState) (l1 l2 : List ℚ),
      runRL 100 20 σ (l1 ++ l2) =
        ((runRL 100 20 σ l1).1 ++ (runRL 100 20 (runRL 100 20 σ l1).2 l2).1,
         (runRL 100 20 (runRL 100 20 σ l1).2 l2).2) := by
    intro σ l1 l2
    induction l1 generalizing σ with
    | nil => simp [runRL]
    | cons x xs ih => simp [runRL, ih]
  rw [happ, hrun]
  simp [runRL, hreject]

/-- Twenty requests at time 0 for the C5 witness. -/
def rlTimesW : List ℚ := List.replicate 20 0

/-- Witness for C5: twenty requests at time 0 and a 21st at time 3 — outside
the one-second batch but inside the 5-second burst window; the final state
keeps only the twenty admitted timestamps and blocks until 63. -/
theorem rate_limiter_burst_contract_witness :
    (runRL 100 20 ⟨[], none⟩ (rlTimesW ++ [(3 : ℚ)])).2 =
      ⟨rlTimesW, some ((3 : ℚ) + 60)⟩ ∧
    (runRL 100 20 ⟨[], none⟩ (rlTimesW ++ [(3 : ℚ)])).1.length = 21 := by
  obtain ⟨rs, heq, hlen, -⟩ := rate_limiter_burst_contract rlTimesW (3 : ℚ)
    (by simp [rlTimesW])
    (by
      intro a ha b hbmem
      simp only [rlTimesW, List.mem_replicate] at ha hbmem
      rw [ha.2, hbmem.2]
      norm_num)
    (by
      intro x hx
      simp only [rlTimesW, List.mem_replicate] at hx
      rw [hx.2]
      norm_num)
  rw [heq]
  simp [hlen]

/-- C10: a rejected window check leaves the client's history exactly purged of
expired entries — the rejected request's timestamp is not appended. -/
theorem rate_limit_reject_frame (rpm burst : Nat) (now : ℚ) (h : List ℚ)
    (hrej : (checkRateLimit rpm burst now h).1 = false) :
    (checkRateLimit rpm burst now h).2.2 = h.dropWhile (fun ts => ts < now - 60) := by
  revert hrej
  simp only [checkRateLimit]
  split
  · intro _; rfl
  · split
    · intro _; rfl
    · intro hrej; simp at hrej

/-- The rejected check of the C10 witness, evaluated: twenty timestamps at 0,
checked at time 1 with burst size 20. -/
lemma checkRateLimit_witness_eval :
    checkRateLimit 100 20 (1 : ℚ) rlTimesW = (false, 0, rlTimesW) := by
  have hdrop : rlTimesW.dropWhile (fun ts => ts < (1 : ℚ) - 60) = rlTimesW :=
    dropWhile_eq_self_of_not_head (fun x hx => by
      simp only [rlTimesW, List.mem_replicate] at hx
      simp [hx.2])
  have hfilter : rlTimesW.filter (fun ts => (1 : ℚ) - 5 < ts) = rlTimesW :=
    List.filter_eq_self.mpr (fun x hx => by
      simp only [rlTimesW, List.mem_replicate] at hx
      simp [hx.2])
  simp only [checkRateLimit, hdrop, hfilter]
  rw [if_pos (by simp [rlTimesW])]

/-- Witness for C10: twenty timestamps at 0 and the check at time 1 (burst 20)
is rejected, leaving the history unchanged. -/
theorem rate_limit_reject_frame_witness :
    (checkRateLimit 100 20 (1 : ℚ) rlTimesW).1 = false ∧
    (checkRateLimit 100 20 (1 : ℚ) rlTimesW).2.2 =
      rlTimesW.dropWhile (fun ts => ts < (1 : ℚ) - 60) := by
  have h1 : (checkRateLimit 100 20 (1 : ℚ) rlTimesW).1 = false := by
    rw [checkRateLimit_witness_eval]
  exact ⟨h1, rate_limit_reject_frame 100 20 (1 : ℚ) rlTimesW h1⟩

/-! ### Browser pool (src/app/services/browser_pool.py)

The Playwright context/page handles play no role in the pool discipline and
are omitted; `uuid.uuid4()` is modelled by a fresh counter carried in the pool
state; the pool dictionary (iterated in insertion order) is a list. -/

/-- `BrowserInstance` (src/app/services/browser_pool.py lines 16-47). -/
structure BrowserInstance where
  id : Nat
  sessionId : Option String
  createdAt : ℚ
  lastUsed : ℚ
  isBusy : Bool
  isMobile : Bool
deriving DecidableEq

/-- `BrowserInstance.mark_busy` (lines 33-37), which also refreshes
`last_used`. -/
def BrowserInstance.markBusy (inst : BrowserInstance) (sid : String) (now : ℚ) :
    BrowserInstance :=
  { inst with isBusy := true, sessionId := some sid, lastUsed := now }

/-- `BrowserInstance.mark_free` (lines 39-42). -/
def BrowserInstance.markFree (inst : BrowserInstance) : BrowserInstance :=
  { inst with isBusy := false, sessionId := none }

/-- State of `BrowserPoolManager` (lines 53-63): the pool dictionary in
insertion order, `session_map`, and the fresh-id counter standing in for
`uuid4`. -/
structure PoolState where
  pool : List BrowserInstance
  sessionMap : String → Option Nat
  nextId : Nat

/-- Pointwise update of the pool entry with the given id (mutation of the
instance object held in the `self.pool` dict). -/
def updateInstance (pool : List BrowserInstance) (iid : Nat)
    (f : BrowserInstance → BrowserInstance) : List BrowserInstance :=
  pool.map (fun i => if i.id = iid then f i else i)

/-- Function-map update for `session_map`. -/
def mapSet (f : String → Option Nat) (k : String) (v : Option Nat) :
    String → Option Nat :=
  fun x => if x = k then v else f x

/-- Assigning an existing free instance to a session
(src/app/services/browser_pool.py lines 280-285 and 301-305): `mark_busy` plus
the `session_map` entry. -/
def assignFree (σ : PoolState) (inst : BrowserInstance) (s : String) (now : ℚ) : PoolState :=
  { σ with pool := updateInstance σ.pool inst.id (fun i => i.markBusy s now),
           sessionMap := mapSet σ.sessionMap s (some inst.id) }

/-- `BrowserPoolManager.acquire` (lines 262-306) after the affinity check
failed: scan for a free instance of the device class, else create when below
the maximum size, else the wait loop's scan for any free instance (the loop
blocks when none is free: result `none`, state unchanged). -/
def acquireNoAffinity (maxPool : Nat) (σ : PoolState) (s : String) (m : Bool) (now : ℚ) :
    Option BrowserInstance × PoolState :=
  match σ.pool.find? (fun i => !i.isBusy && i.isMobile == m) with
  | some inst => (some (inst.markBusy s now), assignFree σ inst s now)
  | none =>
    if σ.pool.length < maxPool then
      let inst : BrowserInstance :=
        { id := σ.nextId, sessionId := none, createdAt := now, lastUsed := now,
          isBusy := false, isMobile := m }
      (some (inst.markBusy s now),
       { pool := σ.pool ++ [inst.markBusy s now],
         sessionMap := mapSet σ.sessionMap s (some inst.id),
         nextId := σ.nextId + 1 })
    else
      match σ.pool.find? (fun i => !i.isBusy) with
      | some inst => (some (inst.markBusy s now), assignFree σ inst s now)
      | none => (none, σ)

/-- `BrowserPoolManager.acquire` (src/app/services/browser_pool.py lines
262-306): session affinity first (returning the owned instance with a
refreshed `last_used`), then the free-scan/create/wait chain. -/
def acquire (maxPool : Nat) (σ : PoolState) (s : String) (m : Bool) (now : ℚ) :
    Option BrowserInstance × PoolState :=
  match σ.sessionMap s with
  | some iid =>
    match σ.pool.find? (fun i => i.id == iid) with
    | some inst =>
      (some { inst with lastUsed := now },
       { σ with pool := updateInstance σ.pool iid (fun i => { i with lastUsed := now }) })
    | none => acquireNoAffinity maxPool σ s m now
  | none => acquireNoAffinity maxPool σ s m now

/-- `BrowserPoolManager.release` (src/app/services/browser_pool.py lines
307-326): mark the owned instance free and drop the `session_map` entry; a
session with no entry, or an entry whose instance is gone, is left as is. -/
def release (σ : PoolState) (s : String) : PoolState :=
  match σ.sessionMap s with
  | some iid =>
    if (σ.pool.find? (fun i => i.id == iid)).isSome then
      { σ with pool := updateInstance σ.pool iid BrowserInstance.markFree,
               sessionMap := mapSet σ.sessionMap s none }
    else σ
  | none => σ

/-- The `while instances_to_remove and len(self.pool) - len(instances_to_remove) < 2`
loop of `_cleanup_idle_instances` (lines 349-350): pop removal candidates from
the end until at least two instances would remain. -/
def keepFloor (poolLen : Nat) (l : List Nat) : List Nat :=
  if h : l ≠ [] ∧ poolLen - l.length < 2 then keepFloor poolLen l.dropLast else l
termination_by l.length
decreasing_by
  rw [List.length_dropLast]
  have : l ≠ [] := h.1
  cases l with
  | nil => exact absurd rfl this
  | cons x xs => simp

/-- `BrowserPoolManager._cleanup_idle_instances` (src/app/services/browser_pool.py
lines 338-364) with `idle_timeout = 300`: collect the free instances idle
longer than the timeout, retain at least two instances, destroy the rest. -/
def cleanupIdle (σ : PoolState) (now : ℚ) : PoolState :=
  let toRemove := (σ.pool.filter (fun i => !i.isBusy && decide (300 < now - i.lastUsed))).map
    (fun i => i.id)
  let toRemove := keepFloor σ.pool.length toRemove
  { σ with pool := σ.pool.filter (fun i => !decide (i.id ∈ toRemove)) }

/-- The pool right after `initialize`/`_pre_create_instances`
(src/app/services/browser_pool.py lines 101-120): `k ≤ min 3 maxPool` free
desktop instances, no session mapping. -/
def initPool (k : Nat) (t : ℚ) : PoolState :=
  { pool := (List.range k).map (fun n =>
      { id := n, sessionId := none, createdAt := t, lastUsed := t,
        isBusy := false, isMobile := false }),
    sessionMap := fun _ => none,
    nextId := k }

/-- Pool states reachable through the manager's operations from a freshly
initialized pool. -/
inductive Reachable (maxPool : Nat) : PoolState → Prop
  | init (k : Nat) (t : ℚ) (hk : k ≤ min 3 maxPool) : Reachable maxPool (initPool k t)
  | acquireStep (σ : PoolState) (s : String) (m : Bool) (now : ℚ) :
      Reachable maxPool σ → Reachable maxPool (acquire maxPool σ s m now).2
  | releaseStep (σ : PoolState) (s : String) :
      Reachable maxPool σ → Reachable maxPool (release σ s)
  | cleanupStep (σ : PoolState) (now : ℚ) :
      Reachable maxPool σ → Reachable maxPool (cleanupIdle σ now)

/-- The pool bookkeeping invariant: distinct instance ids below the fresh
counter, busy instances owned by the session mapped to them, free instances
unowned, and every `session_map` entry pointing at a busy pool instance of
that session. -/
def PoolInv (σ : PoolState) : Prop :=
  (σ.pool.map (fun i => i.id)).Nodup ∧
  (∀ inst ∈ σ.pool, inst.id < σ.nextId) ∧
  (∀ inst ∈ σ.pool, inst.isBusy = true →
    ∃ s, inst.sessionId = some s ∧ σ.sessionMap s = some inst.id) ∧
  (∀ inst ∈ σ.pool, inst.isBusy = false → inst.sessionId = none) ∧
  (∀ s iid, σ.sessionMap s = some iid →
    ∃ inst ∈ σ.pool, inst.id = iid ∧ inst.isBusy = true ∧ inst.sessionId = some s)

lemma updateInstance_map_id (pool : List BrowserInstance) (iid : Nat)
    (f : BrowserInstance → BrowserInstance) (hf : ∀ i, (f i).id = i.id) :
    (updateInstance pool iid f).map (fun i => i.id) = pool.map (fun i => i.id) := by
  unfold updateInstance
  rw [List.map_map]
  apply List.map_congr_left
  intro i _
  by_cases hc : i.id = iid <;> simp [hc, hf]

lemma updateInstance_length (pool : List BrowserInstance) (iid : Nat)
    (f : BrowserInstance → BrowserInstance) :
    (updateInstance pool iid f).length = pool.length := by
  unfold updateInstance
  exact List.length_map _ _

lemma mem_updateInstance {pool : List BrowserInstance} {iid : Nat}
    {f : BrowserInstance → BrowserInstance} {x : BrowserInstance}
    (hx : x ∈ updateInstance pool iid f) :
    ∃ i ∈ pool, x = if i.id = iid then f i else i := by
  unfold updateInstance at hx
  obtain ⟨i, hi, hxi⟩ := List.mem_map.mp hx
  exact ⟨i, hi, hxi.symm⟩

lemma updateInstance_mem (pool : List BrowserInstance) (iid : Nat)
    (f : BrowserInstance → BrowserInstance) {i : BrowserInstance} (hi : i ∈ pool) :
    (if i.id = iid then f i else i) ∈ updateInstance pool iid f := by
  unfold updateInstance
  exact List.mem_map.mpr ⟨i, hi, rfl⟩

/-- `PoolInv` is preserved by the affinity path of `acquire`, which only
refreshes `last_used` of the owned instance. -/
lemma PoolInv.updateLastUsed {σ : PoolState} (h : PoolInv σ) (iid : Nat) (now : ℚ) :
    PoolInv { σ with
      pool := updateInstance σ.pool iid (fun i => { i with lastUsed := now }) } := by
  obtain ⟨hnd, hlt, hbusy, hfree, hmap⟩ := h
  refine ⟨?_, ?_, ?_, ?_, ?_⟩
  · rw [updateInstance_map_id σ.pool iid (fun i => { i with lastUsed := now }) (fun i => rfl)]
    exact hnd
  · intro x hx
    obtain ⟨i, hi, hxi⟩ := mem_updateInstance hx
    have : x.id = i.id := by rw [hxi]; split <;> rfl
    rw [this]
    exact hlt i hi
  · intro x hx hb
    obtain ⟨i, hi, hxi⟩ := mem_updateInstance hx
    have hid : x.id = i.id := by rw [hxi]; split <;> rfl
    have hbi : x.isBusy = i.isBusy := by rw [hxi]; split <;> rfl
    have hsi : x.sessionId = i.sessionId := by rw [hxi]; split <;> rfl
    obtain ⟨s, hs1, hs2⟩ := hbusy i hi (by rw [← hbi]; exact hb)
    exact ⟨s, by rw [hsi]; exact hs1, by rw [hid]; exact hs2⟩
  · intro x hx hb
    obtain ⟨i, hi, hxi⟩ := mem_updateInstance hx
    have hbi : x.isBusy = i.isBusy := by rw [hxi]; split <;> rfl
    have hsi : x.sessionId = i.sessionId := by rw [hxi]; split <;> rfl
    rw [hsi]
    exact hfree i hi (by rw [← hbi]; exact hb)
  · intro s iid' hs
    obtain ⟨i, hi, h1, h2, h3⟩ := hmap s iid' hs
    refine ⟨if i.id = iid then { i with lastUsed := now } else i,
      updateInstance_mem _ _ _ hi, ?_, ?_, ?_⟩
    · split <;> simpa using h1
    · split <;> simpa using h2
    · split <;> simpa using h3

/-- `PoolInv` is preserved by assigning a free pool instance to an unmapped
session (`mark_busy` + `session_map` insert). -/
lemma PoolInv.assignFreeInv {σ : PoolState} (h : PoolInv σ) {inst : BrowserInstance}
    (hmem : inst ∈ σ.pool) (hfreeI : inst.isBusy = false) (s : String) (now : ℚ)
    (hs : σ.sessionMap s = none) :
    PoolInv (assignFree σ inst s now) := by
  obtain ⟨hnd, hlt, hbusy, hfree, hmap⟩ := h
  have hinj := List.inj_on_of_nodup_map hnd
  refine ⟨?_, ?_, ?_, ?_, ?_⟩
  · rw [show (assignFree σ inst s now).pool
        = updateInstance σ.pool inst.id (fun i => i.markBusy s now) from rfl,
      updateInstance_map_id σ.pool inst.id (fun i => i.markBusy s now) (fun i => rfl)]
    exact hnd
  · intro x hx
    obtain ⟨i, hi, hxi⟩ := mem_updateInstance hx
    have : x.id = i.id := by rw [hxi]; split <;> rfl
    rw [this]
    exact hlt i hi
  · intro x hx hb
    obtain ⟨i, hi, hxi⟩ := mem_updateInstance hx
    by_cases hc : i.id = inst.id
    · have hieq : i = inst := hinj hi hmem hc
      rw [if_pos hc] at hxi
      refine ⟨s, by rw [hxi]; rfl, ?_⟩
      have hxid : x.id = inst.id := by rw [hxi, hieq]; rfl
      show mapSet σ.sessionMap s (some inst.id) s = some x.id
      rw [hxid]
      simp [mapSet]
    · rw [if_neg hc] at hxi
      subst hxi
      obtain ⟨s₀, hs1, hs2⟩ := hbusy x hi hb
      refine ⟨s₀, hs1, ?_⟩
      show mapSet σ.sessionMap s (some inst.id) s₀ = some x.id
      have hne : s₀ ≠ s := by
        intro hcon
        rw [hcon, hs] at hs2
        exact Option.noConfusion hs2
      simp only [mapSet, if_neg hne]
      exact hs2
  · intro x hx hb
    obtain ⟨i, hi, hxi⟩ := mem_updateInstance hx
    by_cases hc : i.id = inst.id
    · rw [if_pos hc] at hxi
      rw [hxi] at hb
      exact absurd hb (by simp [BrowserInstance.markBusy])
    · rw [if_neg hc] at hxi
      subst hxi
      exact hfree x hi hb
  · intro s' iid' hs'
    by_cases hc : s' = s
    · subst hc
      have : iid' = inst.id := by
        have : mapSet σ.sessionMap s' (some inst.id) s' = some inst.id := by simp [mapSet]
        rw [show (assignFree σ inst s' now).sessionMap
            = mapSet σ.sessionMap s' (some inst.id) from rfl] at hs'
        rw [this] at hs'
        exact (Option.some_injective _ hs').symm
      subst this
      refine ⟨inst.markBusy s' now, ?_, rfl, rfl, rfl⟩
      have := updateInstance_mem σ.pool inst.id (fun i => i.markBusy s' now) hmem
      rw [if_pos rfl] at this
      exact this
    · have hs'' : σ.sessionMap s' = some iid' := by
        rw [show (assignFree σ inst s now).sessionMap
            = mapSet σ.sessionMap s (some inst.id) from rfl] at hs'
        simpa [mapSet, hc] using hs'
      obtain ⟨i, hi, h1, h2, h3⟩ := hmap s' iid' hs''
      have hic : i.id ≠ inst.id := by
        intro hcon
        have : i = inst := hinj hi hmem hcon
        rw [this] at h2
        rw [h2] at hfreeI
        exact Bool.noConfusion hfreeI
      refine ⟨i, ?_, h1, h2, h3⟩
      have := updateInstance_mem σ.pool inst.id (fun j => j.markBusy s now) hi
      rw [if_neg hic] at this
      exact this

/-- `PoolInv` is preserved by creating a fresh busy instance for an unmapped
session (the `len(self.pool) < max` branch of `acquire`). -/
lemma PoolInv.createInv {σ : PoolState} (h : PoolInv σ) (s : String) (m : Bool) (now : ℚ)
    (hs : σ.sessionMap s = none) :
    PoolInv
      { pool := σ.pool ++
          [BrowserInstance.markBusy
            { id := σ.nextId, sessionId := none, createdAt := now, lastUsed := now,
              isBusy := false, isMobile := m } s now],
        sessionMap := mapSet σ.sessionMap s (some σ.nextId),
        nextId := σ.nextId + 1 } := by
  obtain ⟨hnd, hlt, hbusy, hfree, hmap⟩ := h
  have hnew : BrowserInstance.markBusy
      { id := σ.nextId, sessionId := none, createdAt := now, lastUsed := now,
        isBusy := false, isMobile := m } s now =
      { id := σ.nextId, sessionId := some s, createdAt := now, lastUsed := now,
        isBusy := true, isMobile := m } := rfl
  rw [hnew]
  refine ⟨?_, ?_, ?_, ?_, ?_⟩
  · rw [List.map_append]
    rw [List.nodup_append]
    refine ⟨hnd, List.nodup_singleton _, ?_⟩
    intro a ha hb
    simp only [List.map_cons, List.map_nil, List.mem_singleton] at hb
    obtain ⟨i, hi, hia⟩ := List.mem_map.mp ha
    have := hlt i hi
    omega
  · intro x hx
    rcases List.mem_append.mp hx with hx | hx
    · show x.id < σ.nextId + 1
      have := hlt x hx
      omega
    · simp only [List.mem_singleton] at hx
      rw [hx]
      show σ.nextId < σ.nextId + 1
      omega
  · intro x hx hb
    rcases List.mem_append.mp hx with hx | hx
    · obtain ⟨s₀, hs1, hs2⟩ := hbusy x hx hb
      refine ⟨s₀, hs1, ?_⟩
      have hne : s₀ ≠ s := by
        intro hcon
        rw [hcon, hs] at hs2
        exact Option.noConfusion hs2
      show mapSet σ.sessionMap s (some σ.nextId) s₀ = some x.id
      simp only [mapSet, if_neg hne]
      exact hs2
    · simp only [List.mem_singleton] at hx
      refine ⟨s, by rw [hx], ?_⟩
      show mapSet σ.sessionMap s (some σ.nextId) s = some x.id
      rw [hx]
      simp [mapSet]
  · intro x hx hb
    rcases List.mem_append.mp hx with hx | hx
    · exact hfree x hx hb
    · simp only [List.mem_singleton] at hx
      rw [hx] at hb
      exact Bool.noConfusion hb
  · intro s' iid' hs'
    change mapSet σ.sessionMap s (some σ.nextId) s' = some iid' at hs'
    simp only [mapSet] at hs'
    by_cases hc : s' = s
    · subst hc
      rw [if_pos rfl] at hs'
      have hii : σ.nextId = iid' := Option.some_injective _ hs'
      subst hii
      exact ⟨_, List.mem_append_right _ (List.mem_singleton_self _), rfl, rfl, rfl⟩
    · rw [if_neg hc] at hs'
      obtain ⟨i, hi, h1, h2, h3⟩ := hmap s' iid' hs'
      exact ⟨i, List.mem_append_left _ hi, h1, h2, h3⟩

/-- `PoolInv` is preserved by `acquireNoAffinity` when the session is
unmapped. -/
lemma PoolInv.acquireNoAffinityInv (maxPool : Nat) {σ : PoolState} (h : PoolInv σ)
    (s : String) (m : Bool) (now : ℚ) (hs : σ.sessionMap s = none) :
    PoolInv (acquireNoAffinity maxPool σ s m now).2 := by
  unfold acquireNoAffinity
  cases hfind : σ.pool.find? (fun i => !i.isBusy && i.isMobile == m) with
  | some inst =>
    have hmem := List.mem_of_find?_eq_some hfind
    have hp := List.find?_some hfind
    have hfreeI : inst.isBusy = false := by
      rcases Bool.and_eq_true_iff.mp hp with ⟨h1, -⟩
      simpa using h1
    exact h.assignFreeInv hmem hfreeI s now hs
  | none =>
    by_cases hlen : σ.pool.length < maxPool
    · simp only [if_pos hlen]
      exact h.createInv s m now hs
    · simp only [if_neg hlen]
      cases hfind2 : σ.pool.find? (fun i => !i.isBusy) with
      | some inst =>
        have hmem := List.mem_of_find?_eq_some hfind2
        have hp := List.find?_some hfind2
        have hfreeI : inst.isBusy = false := by simpa using hp
        exact h.assignFreeInv hmem hfreeI s now hs
      | none => exact h

/-- `PoolInv` is preserved by `acquire`. -/
lemma PoolInv.acquireInv (maxPool : Nat) {σ : PoolState} (h : PoolInv σ)
    (s : String) (m : Bool) (now : ℚ) :
    PoolInv (acquire maxPool σ s m now).2 := by
  unfold acquire
  split
  next iid heq =>
    split
    next inst hf => exact h.updateLastUsed iid now
    next hf =>
      exfalso
      obtain ⟨inst, hmem, hid, -, -⟩ := h.2.2.2.2 s iid heq
      have := List.find?_eq_none.mp hf inst hmem
      simp [hid] at this
  next heq => exact h.acquireNoAffinityInv maxPool s m now heq

/-- `PoolInv` is preserved by `release`. -/
lemma PoolInv.releaseInv {σ : PoolState} (h : PoolInv σ) (s : String) :
    PoolInv (release σ s) := by
  unfold release
  split
  next iid heq =>
    split
    · obtain ⟨hnd, hlt, hbusy, hfree, hmap⟩ := h
      have hinj := List.inj_on_of_nodup_map hnd
      obtain ⟨inst, hmemI, hidI, hbusyI, hsessI⟩ := hmap s iid heq
      refine ⟨?_, ?_, ?_, ?_, ?_⟩
      · show (List.map (fun i => i.id)
            (updateInstance σ.pool iid BrowserInstance.markFree)).Nodup
        rw [updateInstance_map_id σ.pool iid BrowserInstance.markFree (fun i => rfl)]
        exact hnd
      · intro x hx
        obtain ⟨i, hi, hxi⟩ := mem_updateInstance hx
        have : x.id = i.id := by rw [hxi]; split <;> rfl
        rw [this]
        exact hlt i hi
      · intro x hx hb
        obtain ⟨i, hi, hxi⟩ := mem_updateInstance hx
        by_cases hc : i.id = iid
        · rw [if_pos hc] at hxi
          rw [hxi] at hb
          exact absurd hb (by simp [BrowserInstance.markFree])
        · rw [if_neg hc] at hxi
          subst hxi
          obtain ⟨s₀, hs1, hs2⟩ := hbusy x hi hb
          refine ⟨s₀, hs1, ?_⟩
          have hne : s₀ ≠ s := by
            intro hcon
            rw [hcon, heq] at hs2
            exact hc (Option.some_injective _ hs2.symm)
          show mapSet σ.sessionMap s none s₀ = some x.id
          simp only [mapSet, if_neg hne]
          exact hs2
      · intro x hx hb
        obtain ⟨i, hi, hxi⟩ := mem_updateInstance hx
        by_cases hc : i.id = iid
        · rw [if_pos hc] at hxi
          rw [hxi]
          rfl
        · rw [if_neg hc] at hxi
          subst hxi
          exact hfree x hi hb
      · intro s' iid' hs'
        change mapSet σ.sessionMap s none s' = some iid' at hs'
        simp only [mapSet] at hs'
        by_cases hc : s' = s
        · rw [if_pos hc] at hs'
          exact Option.noConfusion hs'
        · rw [if_neg hc] at hs'
          obtain ⟨i, hi, h1, h2, h3⟩ := hmap s' iid' hs'
          have hic : i.id ≠ iid := by
            intro hcon
            have : i = inst := hinj hi hmemI (by rw [hcon, hidI])
            rw [this] at h3
            rw [hsessI] at h3
            exact hc (Option.some_injective _ h3).symm
          refine ⟨i, ?_, h1, h2, h3⟩
          have := updateInstance_mem σ.pool iid BrowserInstance.markFree hi
          rw [if_neg hic] at this
          exact this
    · exact h
  next heq => exact h

lemma keepFloor_subset (n : Nat) (l : List Nat) : ∀ x ∈ keepFloor n l, x ∈ l := by
  have hgen : ∀ (N : Nat) (l : List Nat), l.length ≤ N → ∀ x ∈ keepFloor n l, x ∈ l := by
    intro N
    induction N with
    | zero =>
      intro l hl x hx
      have hnil : l = [] := List.length_eq_zero.mp (Nat.le_zero.mp hl)
      subst hnil
      rw [keepFloor] at hx
      simpa using hx
    | succ N ih =>
      intro l hl x hx
      rw [keepFloor] at hx
      split at hx
      · next hcond =>
        have hlen : l.dropLast.length ≤ N := by
          rw [List.length_dropLast]
          have : l.length ≠ 0 := fun hz => hcond.1 (List.length_eq_zero.mp hz)
          omega
        exact List.dropLast_subset l (ih l.dropLast hlen x hx)
      · exact hx
  exact hgen l.length l le_rfl

lemma keepFloor_length_le (n : Nat) (l : List Nat) : (keepFloor n l).length ≤ n - 2 := by
  have hgen : ∀ (N : Nat) (l : List Nat), l.length ≤ N → (keepFloor n l).length ≤ n - 2 := by
    intro N
    induction N with
    | zero =>
      intro l hl
      have hnil : l = [] := List.length_eq_zero.mp (Nat.le_zero.mp hl)
      subst hnil
      rw [keepFloor]
      simp
    | succ N ih =>
      intro l hl
      rw [keepFloor]
      split
      · next hcond =>
        apply ih
        rw [List.length_dropLast]
        have : l.length ≠ 0 := fun hz => hcond.1 (List.length_eq_zero.mp hz)
        omega
      · next hcond =>
        rcases Decidable.not_and_iff_or_not.mp hcond with hc | hc
        · have : l = [] := not_not.mp hc
          subst this
          simp
        · omega
  exact hgen l.length l le_rfl

/-- `PoolInv` is preserved by `cleanupIdle`. -/
lemma PoolInv.cleanupIdleInv {σ : PoolState} (h : PoolInv σ) (now : ℚ) :
    PoolInv (cleanupIdle σ now) := by
  obtain ⟨hnd, hlt, hbusy, hfree, hmap⟩ := h
  have hinj := List.inj_on_of_nodup_map hnd
  unfold cleanupIdle
  set tr := keepFloor σ.pool.length
    ((σ.pool.filter (fun i => !i.isBusy && decide (300 < now - i.lastUsed))).map
      (fun i => i.id)) with htr
  have hsub : (σ.pool.filter (fun i => !decide (i.id ∈ tr))).Sublist σ.pool :=
    List.filter_sublist _
  refine ⟨?_, ?_, ?_, ?_, ?_⟩
  · exact hnd.sublist (hsub.map (fun i => i.id))
  · intro x hx
    exact hlt x (hsub.subset hx)
  · intro x hx hb
    exact hbusy x (hsub.subset hx) hb
  · intro x hx hb
    exact hfree x (hsub.subset hx) hb
  · intro s iid hs
    obtain ⟨inst, hmemI, hidI, hbusyI, hsessI⟩ := hmap s iid hs
    refine ⟨inst, ?_, hidI, hbusyI, hsessI⟩
    rw [List.mem_filter]
    refine ⟨hmemI, ?_⟩
    simp only [Bool.not_eq_true', decide_eq_false_iff_not]
    intro hmemTr
    have hmem0 := keepFloor_subset _ _ _ hmemTr
    obtain ⟨j, hj, hjid⟩ := List.mem_map.mp hmem0
    have hjmem := (List.mem_filter.mp hj).1
    have hjp := (List.mem_filter.mp hj).2
    have hjfree : j.isBusy = false := by
      rcases Bool.and_eq_true_iff.mp hjp with ⟨h1, -⟩
      simpa using h1
    have : j = inst := hinj hjmem hmemI (by rw [hjid, hidI])
    rw [this] at hjfree
    rw [hjfree] at hbusyI
    exact Bool.noConfusion hbusyI

/-- `PoolInv` holds for a freshly initialized pool. -/
lemma PoolInv.initPoolInv (k : Nat) (t : ℚ) : PoolInv (initPool k t) := by
  refine ⟨?_, ?_, ?_, ?_, ?_⟩
  · rw [show (initPool k t).pool = (List.range k).map (fun n =>
        ({ id := n, sessionId := none, createdAt := t, lastUsed := t,
           isBusy := false, isMobile := false } : BrowserInstance)) from rfl,
      List.map_map]
    have : ((fun i => BrowserInstance.id i) ∘ (fun n =>
        ({ id := n, sessionId := none, createdAt := t, lastUsed := t,
           isBusy := false, isMobile := false } : BrowserInstance))) = id := by
      funext n
      rfl
    rw [this, List.map_id]
    exact List.nodup_range k
  · intro x hx
    obtain ⟨n, hn, hxn⟩ := List.mem_map.mp hx
    rw [← hxn]
    exact List.mem_range.mp hn
  · intro x hx hb
    obtain ⟨n, hn, hxn⟩ := List.mem_map.mp hx
    rw [← hxn] at hb
    exact Bool.noConfusion hb
  · intro x hx _
    obtain ⟨n, hn, hxn⟩ := List.mem_map.mp hx
    rw [← hxn]
  · intro s iid hs
    exact Option.noConfusion hs

/-- Every reachable pool state satisfies the bookkeeping invariant. -/
lemma PoolInv.ofReachable {maxPool : Nat} {σ : PoolState} (h : Reachable maxPool σ) :
    PoolInv σ := by
  induction h with
  | init k t hk => exact PoolInv.initPoolInv k t
  | acquireStep σ s m now _ ih => exact ih.acquireInv maxPool s m now
  | releaseStep σ s _ ih => exact ih.releaseInv s
  | cleanupStep σ now _ ih => exact ih.cleanupIdleInv now

/-- C3: in every reachable pool state, a busy instance has its `session_id`
set and exactly one `session_map` entry pointing at it, and a free instance
has no `session_id` and no `session_map` entry. -/
theorem pool_ownership_invariant (maxPool : Nat) (σ : PoolState)
    (h : Reachable maxPool σ) (inst : BrowserInstance) (hmem : inst ∈ σ.pool) :
    (inst.isBusy = true → ∃ s, inst.sessionId = some s ∧ σ.sessionMap s = some inst.id ∧
      ∀ s', σ.sessionMap s' = some inst.id → s' = s) ∧
    (inst.isBusy = false → inst.sessionId = none ∧ ∀ s, σ.sessionMap s ≠ some inst.id) := by
  obtain ⟨hnd, hlt, hbusy, hfree, hmap⟩ := PoolInv.ofReachable h
  have hinj := List.inj_on_of_nodup_map hnd
  constructor
  · intro hb
    obtain ⟨s, hs1, hs2⟩ := hbusy inst hmem hb
    refine ⟨s, hs1, hs2, ?_⟩
    intro s' hs'
    obtain ⟨inst', hmem', hid', hb', hsess'⟩ := hmap s' inst.id hs'
    have heq : inst' = inst := hinj hmem' hmem hid'
    rw [heq] at hsess'
    rw [hs1] at hsess'
    exact (Option.some_injective _ hsess'.symm)
  · intro hfb
    refine ⟨hfree inst hmem hfb, ?_⟩
    intro s hs
    obtain ⟨inst', hmem', hid', hb', -⟩ := hmap s inst.id hs
    have heq : inst' = inst := hinj hmem' hmem hid'
    rw [heq] at hb'
    rw [hb'] at hfb
    exact Bool.noConfusion hfb

/-- The pool state of the C3 witness: two pre-created instances, then an
acquire for session "s1". -/
def poolStateW : PoolState := (acquire 10 (initPool 2 0) "s1" false 0).2

/-- The busy instance of the C3 witness. -/
def instW : BrowserInstance :=
  { id := 0, sessionId := some "s1", createdAt := 0, lastUsed := 0,
    isBusy := true, isMobile := false }

/-- Witness for C3 at a concrete reachable state: after one acquire the busy
instance is owned by exactly the acquiring session. -/
theorem pool_ownership_invariant_witness :
    instW ∈ poolStateW.pool ∧
    (∃ s, instW.sessionId = some s ∧ poolStateW.sessionMap s = some instW.id ∧
      ∀ s', poolStateW.sessionMap s' = some instW.id → s' = s) := by
  have hpool : poolStateW.pool = [instW,
      { id := 1, sessionId := none, createdAt := 0, lastUsed := 0,
        isBusy := false, isMobile := false }] := rfl
  have hmem : instW ∈ poolStateW.pool := by
    rw [hpool]
    exact List.mem_cons_self _ _
  have hreach : Reachable 10 poolStateW :=
    Reachable.acquireStep (initPool 2 0) "s1" false 0 (Reachable.init 2 0 (by decide))
  exact ⟨hmem, (pool_ownership_invariant 10 poolStateW hreach instW hmem).1 rfl⟩

lemma acquireNoAffinity_length_le (maxPool : Nat) (σ : PoolState) (s : String) (m : Bool)
    (now : ℚ) (hmax : σ.pool.length ≤ maxPool) :
    ((acquireNoAffinity maxPool σ s m now).2).pool.length ≤ maxPool := by
  unfold acquireNoAffinity
  cases hfind : σ.pool.find? (fun i => !i.isBusy && i.isMobile == m) with
  | some inst =>
    show (updateInstance σ.pool inst.id (fun i => i.markBusy s now)).length ≤ maxPool
    rw [updateInstance_length]
    exact hmax
  | none =>
    by_cases hlen : σ.pool.length < maxPool
    · simp only [if_pos hlen]
      show (σ.pool ++ [_]).length ≤ maxPool
      rw [List.length_append]
      simpa using hlen
    · simp only [if_neg hlen]
      cases hfind2 : σ.pool.find? (fun i => !i.isBusy) with
      | some inst =>
        show (updateInstance σ.pool inst.id (fun i => i.markBusy s now)).length ≤ maxPool
        rw [updateInstance_length]
        exact hmax
      | none => exact hmax

/-- C4: `acquire` never grows the pool past the configured maximum (a new
instance is created only when the current size is below it), and an idle
cleanup pass never leaves fewer than two instances when at least two were
present (in general it retains `min 2` of the current size). -/
theorem pool_size_bounds (maxPool : Nat) (σ : PoolState) (s : String) (m : Bool)
    (now now2 : ℚ)
    (hmax : σ.pool.length ≤ maxPool)
    (hnd : (σ.pool.map (fun i => i.id)).Nodup) :
    ((acquire maxPool σ s m now).2).pool.length ≤ maxPool ∧
    min 2 σ.pool.length ≤ (cleanupIdle σ now2).pool.length := by
  constructor
  · unfold acquire
    split
    next iid heq =>
      split
      next inst hf =>
        show (updateInstance σ.pool iid (fun i => { i with lastUsed := now })).length ≤ maxPool
        rw [updateInstance_length]
        exact hmax
      next hf => exact acquireNoAffinity_length_le maxPool σ s m now hmax
    next heq => exact acquireNoAffinity_length_le maxPool σ s m now hmax
  · unfold cleanupIdle
    set tr := keepFloor σ.pool.length
      ((σ.pool.filter (fun i => !i.isBusy && decide (300 < now2 - i.lastUsed))).map
        (fun i => i.id)) with htr
    have htrlen : tr.length ≤ σ.pool.length - 2 := keepFloor_length_le _ _
    have hsplit := List.length_eq_length_filter_add
      (l := σ.pool) (fun i => decide (i.id ∈ tr))
    have hrem : ((σ.pool.filter (fun i => decide (i.id ∈ tr))).map
        (fun i => i.id)).length ≤ tr.length := by
      apply List.Subperm.length_le
      apply List.subperm_of_subset
      · exact hnd.sublist ((List.filter_sublist _).map _)
      · intro a ha
        obtain ⟨i, hi, hia⟩ := List.mem_map.mp ha
        have := (List.mem_filter.mp hi).2
        rw [← hia]
        simpa using this
    rw [List.length_map] at hrem
    show min 2 σ.pool.length ≤ (σ.pool.filter (fun i => !decide (i.id ∈ tr))).length
    omega

/-- Witness for C4 at concrete inputs: maximum size 2, a full fresh pool, an
acquire at time 0 and an idle cleanup at time 400. -/
theorem pool_size_bounds_witness :
    ((acquire 2 (initPool 2 0) "s1" false 0).2).pool.length ≤ 2 ∧
    min 2 (initPool 2 0).pool.length ≤ (cleanupIdle (initPool 2 0) 400).pool.length := by
  exact pool_size_bounds 2 (initPool 2 0) "s1" false 0 400 (by decide) (by decide)

/-! ### Base64 and the gateway URL round trip
(src/app/services/content_rewriter.py and src/app/api/proxy_routes.py)

`base64.b64encode`/`b64decode` over byte lists, per RFC 4648 as Python
implements them; `str.encode()`/`bytes.decode('utf-8')` are modelled on the
ASCII range (URLs in the rewritten attributes), where UTF-8 is the identity
on character codes. -/

/-- The RFC 4648 base64 alphabet. -/
def b64Alphabet : List Char :=
  "ABCDEFGHIJKLMNOPQRSTUVWXYZabcdefghijklmnopqrstuvwxyz0123456789+/".data

/-- The alphabet character of a 6-bit group. -/
def idxChar (n : Nat) : Char := b64Alphabet.getD n 'A'

/-- The 6-bit group of an alphabet character. -/
def decChar (c : Char) : Nat := b64Alphabet.indexOf c

/-- `base64.b64encode` on a byte list. -/
def b64encode : List Nat → List Char
  | [] => []
  | [a] => [idxChar (a / 4), idxChar (a % 4 * 16), '=', '=']
  | [a, b] => [idxChar (a / 4), idxChar (a % 4 * 16 + b / 16), idxChar (b % 16 * 4), '=']
  | a :: b :: c :: rest =>
    idxChar (a / 4) :: idxChar (a % 4 * 16 + b / 16) :: idxChar (b % 16 * 4 + c / 64) ::
      idxChar (c % 64) :: b64encode rest

/-- `base64.b64decode` on well-formed input (four-character groups with
RFC 4648 padding); ill-formed tails decode to `[]`. -/
def b64decode : List Char → List Nat
  | w :: x :: y :: z :: rest =>
    if z = '=' then
      if y = '=' then [decChar w * 4 + decChar x / 16]
      else [decChar w * 4 + decChar x / 16, decChar x % 16 * 16 + decChar y / 4]
    else
      (decChar w * 4 + decChar x / 16) ::
        (decChar x % 16 * 16 + decChar y / 4) ::
        (decChar y % 4 * 64 + decChar z) :: b64decode rest
  | _ => []

lemma decChar_idxChar_fin : ∀ i : Fin 64, decChar (idxChar i.val) = i.val := by decide

lemma decChar_idxChar (i : Nat) (h : i < 64) : decChar (idxChar i) = i :=
  decChar_idxChar_fin ⟨i, h⟩

lemma idxChar_ne_pad_fin : ∀ i : Fin 64, idxChar i.val ≠ '=' := by decide

lemma idxChar_ne_pad (i : Nat) (h : i < 64) : idxChar i ≠ '=' :=
  idxChar_ne_pad_fin ⟨i, h⟩

lemma b64decode_pad2 (w x : Char) :
    b64decode [w, x, '=', '='] = [decChar w * 4 + decChar x / 16] := by
  simp [b64decode]

lemma b64decode_pad1 (w x y : Char) (hy : y ≠ '=') :
    b64decode [w, x, y, '='] =
      [decChar w * 4 + decChar x / 16, decChar x % 16 * 16 + decChar y / 4] := by
  simp [b64decode, hy]

lemma b64decode_full (w x y z : Char) (hz : z ≠ '=') (rest : List Char) :
    b64decode (w :: x :: y :: z :: rest) =
      (decChar w * 4 + decChar x / 16) ::
        (decChar x % 16 * 16 + decChar y / 4) ::
        (decChar y % 4 * 64 + decChar z) :: b64decode rest := by
  simp [b64decode, hz]

/-- Decoding inverts encoding on byte lists. -/
theorem b64decode_b64encode (l : List Nat) (h : ∀ x ∈ l, x < 256) :
    b64decode (b64encode l) = l := by
  have hgen : ∀ (N : Nat) (l : List Nat), l.length ≤ N → (∀ x ∈ l, x < 256) →
      b64decode (b64encode l) = l := by
    intro N
    induction N with
    | zero =>
      intro l hl _
      have : l = [] := List.length_eq_zero.mp (Nat.le_zero.mp hl)
      subst this
      simp [b64encode, b64decode]
    | succ N ih =>
      intro l hl hb
      match l with
      | [] => simp [b64encode, b64decode]
      | [a] =>
        have ha : a < 256 := hb a (by simp)
        show b64decode [idxChar (a / 4), idxChar (a % 4 * 16), '=', '='] = [a]
        rw [b64decode_pad2,
          decChar_idxChar (a / 4) (by omega), decChar_idxChar (a % 4 * 16) (by omega)]
        congr 1
        omega
      | [a, b] =>
        have ha : a < 256 := hb a (by simp)
        have hbb : b < 256 := hb b (by simp)
        show b64decode [idxChar (a / 4), idxChar (a % 4 * 16 + b / 16),
          idxChar (b % 16 * 4), '='] = [a, b]
        rw [b64decode_pad1 _ _ _ (idxChar_ne_pad (b % 16 * 4) (by omega)),
          decChar_idxChar (a / 4) (by omega),
          decChar_idxChar (a % 4 * 16 + b / 16) (by omega),
          decChar_idxChar (b % 16 * 4) (by omega)]
        congr 2 <;> omega
      | a :: b :: c :: rest =>
        have ha : a < 256 := hb a (by simp)
        have hbb : b < 256 := hb b (by simp)
        have hc : c < 256 := hb c (by simp)
        have hrest : b64decode (b64encode rest) = rest := by
          apply ih rest (by simp at hl; omega)
          intro x hx
          exact hb x (by simp [hx])
        show b64decode (idxChar (a / 4) :: idxChar (a % 4 * 16 + b / 16) ::
          idxChar (b % 16 * 4 + c / 64) :: idxChar (c % 64) :: b64encode rest)
          = a :: b :: c :: rest
        rw [b64decode_full _ _ _ _ (idxChar_ne_pad (c % 64) (by omega)),
          decChar_idxChar (a / 4) (by omega),
          decChar_idxChar (a % 4 * 16 + b / 16) (by omega),
          decChar_idxChar (b % 16 * 4 + c / 64) (by omega),
          decChar_idxChar (c % 64) (by omega), hrest]
        congr 3 <;> omega
  exact hgen l.length l le_rfl h

/-- Python's `str.startswith`. -/
def strStarts (s p : String) : Bool := p.data.isPrefixOf s.data

/-- The characters of `base` up to and including its last slash (the directory
part used for relative resolution). -/
def dropAfterLastSlash (cs : List Char) : List Char :=
  (cs.reverse.dropWhile (fun c => c ≠ '/')).reverse

/-- The stdlib `urllib.parse.urljoin`, modelled on the reference shapes the
rewriters feed it: a reference carrying its own scheme is returned unchanged
(absolute http(s) URLs, and non-relative schemes such as mailto:, tel:, data:,
javascript:), a protocol-relative reference adopts the base scheme, and any
other reference resolves against the base's directory. -/
def urljoin (base url : String) : String :=
  if strStarts url "http://" ∨ strStarts url "https://" ∨ strStarts url "mailto:" ∨
      strStarts url "tel:" ∨ strStarts url "data:" ∨ strStarts url "javascript:" then
    url
  else if strStarts url "//" then
    (if strStarts base "https:" then "https:" else "http:") ++ url
  else
    String.mk (dropAfterLastSlash base.data) ++ url

/-- `str.encode()` on ASCII text (UTF-8 is the identity on codes below 128). -/
def pyUtf8Encode (s : String) : List Nat := s.data.map (fun c => c.toNat)

/-- `bytes.decode('utf-8')` on ASCII bytes. -/
def pyUtf8Decode (bs : List Nat) : String := String.mk (bs.map (fun n => Char.ofNat n))

/-- `ContentRewriter._create_proxy_url` (src/app/services/content_rewriter.py
lines 506-517): pass through empty, `data:`, `javascript:` and fragment-only
references; otherwise resolve against the base URL, base64-encode, and wrap
into `/proxy?url=<encoded>`. -/
def createProxyUrl (url baseUrl : String) : String :=
  if url = "" ∨ strStarts url "data:" ∨ strStarts url "javascript:" ∨ strStarts url "#" then
    url
  else
    "/proxy?url=" ++ String.mk (b64encode (pyUtf8Encode (urljoin baseUrl url)))

/-- The decoding step of `proxy_request` (src/app/api/proxy_routes.py lines
22-24): `base64.b64decode(url).decode('utf-8')` on the `url` query
parameter. -/
def decodeProxyParam (param : String) : String := pyUtf8Decode (b64decode param.data)

/-- The `url` query parameter of a gateway URL of the form
`/proxy?url=<encoded>`. -/
def gatewayParamOf (g : String) : Option String :=
  if strStarts g "/proxy?url=" then some (String.mk (g.data.drop 11)) else none

lemma string_mk_data (s : String) : String.mk s.data = s := by
  cases s
  rfl

lemma head_of_strStarts {s p : String} (h : strStarts s p = true) (c : Char)
    (cs : List Char) (hp : p.data = c :: cs) : s.data.head? = some c := by
  rw [strStarts, List.isPrefixOf_iff_prefix] at h
  obtain ⟨t, ht⟩ := h
  rw [hp] at ht
  rw [← ht]
  rfl

lemma urljoin_absolute (base u : String)
    (h : strStarts u "http://" = true ∨ strStarts u "https://" = true) :
    urljoin base u = u := by
  unfold urljoin
  rcases h with h | h
  · rw [if_pos (Or.inl h)]
  · rw [if_pos (Or.inr (Or.inl h))]

lemma pyUtf8Decode_pyUtf8Encode (s : String) (h : ∀ c ∈ s.data, c.toNat < 128) :
    pyUtf8Decode (b64decode (b64encode (pyUtf8Encode s))) = s := by
  unfold pyUtf8Decode pyUtf8Encode
  rw [b64decode_b64encode _ (by
    intro x hx
    obtain ⟨c, hc, hcx⟩ := List.mem_map.mp hx
    rw [← hcx]
    have := h c hc
    omega)]
  rw [List.map_map]
  have hid : ∀ l : List Char, l.map ((fun n => Char.ofNat n) ∘ (fun c => c.toNat)) = l := by
    intro l
    induction l with
    | nil => rfl
    | cons c cs ih => simp [ih, Char.ofNat_toNat]
  rw [hid, string_mk_data]

/-- C2: an absolute `http(s)` URL is rewritten by `_create_proxy_url` to the
gateway form `/proxy?url=<base64(url)>`, and base64-decoding that query
parameter (as the proxy route does) reconstructs exactly the original URL. -/
theorem proxy_url_roundtrip (u base : String)
    (habs : strStarts u "http://" = true ∨ strStarts u "https://" = true)
    (hascii : ∀ c ∈ u.data, c.toNat < 128) :
    createProxyUrl u base = "/proxy?url=" ++ String.mk (b64encode (pyUtf8Encode u)) ∧
    gatewayParamOf (createProxyUrl u base) =
      some (String.mk (b64encode (pyUtf8Encode u))) ∧
    decodeProxyParam (String.mk (b64encode (pyUtf8Encode u))) = u := by
  have hhead : u.data.head? = some 'h' := by
    rcases habs with h | h
    · exact head_of_strStarts h 'h' "ttp://".data rfl
    · exact head_of_strStarts h 'h' "ttps://".data rfl
  have hguard : ¬(u = "" ∨ strStarts u "data:" = true ∨ strStarts u "javascript:" = true ∨
      strStarts u "#" = true) := by
    rintro (h | h | h | h)
    · rw [h] at hhead
      exact Option.noConfusion hhead
    · have := head_of_strStarts h 'd' "ata:".data rfl
      rw [hhead] at this
      simp at this
    · have := head_of_strStarts h 'j' "avascript:".data rfl
      rw [hhead] at this
      simp at this
    · have := head_of_strStarts h '#' [] rfl
      rw [hhead] at this
      simp at this
  have henc : createProxyUrl u base =
      "/proxy?url=" ++ String.mk (b64encode (pyUtf8Encode u)) := by
    unfold createProxyUrl
    rw [if_neg hguard, urljoin_absolute base u habs]
  refine ⟨henc, ?_, ?_⟩
  · rw [henc]
    unfold gatewayParamOf
    have hpre : strStarts ("/proxy?url=" ++ String.mk (b64encode (pyUtf8Encode u)))
        "/proxy?url=" = true := by
      rw [strStarts, List.isPrefixOf_iff_prefix, String.data_append]
      exact ⟨(String.mk (b64encode (pyUtf8Encode u))).data, rfl⟩
    rw [if_pos hpre, String.data_append]
    rw [show (11 : Nat) = "/proxy?url=".data.length from rfl, List.drop_left,
      string_mk_data]
  · unfold decodeProxyParam
    exact pyUtf8Decode_pyUtf8Encode u hascii

/-- Witness for C2 at the spec's example URL. -/
theorem proxy_url_roundtrip_witness :
    createProxyUrl "https://a.test/b.png" "https://a.test/" =
      "/proxy?url=" ++ String.mk (b64encode (pyUtf8Encode "https://a.test/b.png")) ∧
    decodeProxyParam (String.mk (b64encode (pyUtf8Encode "https://a.test/b.png"))) =
      "https://a.test/b.png" := by
  have h := proxy_url_roundtrip "https://a.test/b.png" "https://a.test/"
    (Or.inr (by decide)) (by decide)
  exact ⟨h.1, h.2.2⟩

/-- C7 counterexample: a `mailto:` reference is not left untouched by
`_create_proxy_url` — it is wrapped into a gateway proxy URL. -/
theorem mailto_not_passthrough :
    createProxyUrl "mailto:a@b.c" "https://x.test/" ≠ "mailto:a@b.c" := by decide

/-- C7 amended: references starting with `data:`, `javascript:`, or `#` are
returned unchanged by `_create_proxy_url` (while `mailto:`/`tel:` references
are wrapped into gateway URLs by this rewriter). -/
theorem special_scheme_passthrough (url base : String)
    (h : strStarts url "data:" = true ∨ strStarts url "javascript:" = true ∨
      strStarts url "#" = true) :
    createProxyUrl url base = url := by
  unfold createProxyUrl
  rcases h with h | h | h
  · rw [if_pos (Or.inr (Or.inl h))]
  · rw [if_pos (Or.inr (Or.inr (Or.inl h)))]
  · rw [if_pos (Or.inr (Or.inr (Or.inr h)))]

/-- Witness for the amended C7 at the three pass-through shapes. -/
theorem special_scheme_passthrough_witness :
    createProxyUrl "data:image/png;base64,AA" "https://x.test/" =
      "data:image/png;base64,AA" ∧
    createProxyUrl "javascript:void(0)" "https://x.test/" = "javascript:void(0)" ∧
    createProxyUrl "#frag" "https://x.test/" = "#frag" :=
  ⟨special_scheme_passthrough _ "https://x.test/" (Or.inl (by decide)),
   special_scheme_passthrough _ "https://x.test/" (Or.inr (Or.inl (by decide))),
   special_scheme_passthrough _ "https://x.test/" (Or.inr (Or.inr (by decide)))⟩

/-! ### Override-script injection (src/app/services/content_rewriter.py) -/

/-- A document node as the injection pass observes it: the override script
block (`<script id="proxy-spoofing-script">`, lines 91-353) or anything
else. -/
inductive HtmlNode where
  | spoofScript
  | other (tag : String)
deriving DecidableEq

/-- The parsed soup as `_inject_spoofing_script` observes it: the children of
`<head>` and of `<body>` when those tags exist, and whether an `<html>` tag
exists (the attachment point for a synthesized head). -/
structure SoupDoc where
  head : Option (List HtmlNode)
  body : Option (List HtmlNode)
  htmlTag : Bool
deriving DecidableEq

/-- `ContentRewriter._inject_spoofing_script`
(src/app/services/content_rewriter.py lines 88-367): the script block is
inserted unconditionally — at position 0 of `<head>`, else position 0 of
`<body>`, else into a head synthesized under `<html>` when that tag exists
(and dropped entirely when it does not). There is no check for an already
present `proxy-spoofing-script` block. -/
def injectSpoofingScript (d : SoupDoc) : SoupDoc :=
  match d.head with
  | some h => { d with head := some (HtmlNode.spoofScript :: h) }
  | none =>
    match d.body with
    | some b => { d with body := some (HtmlNode.spoofScript :: b) }
    | none =>
      if d.htmlTag then { d with head := some [HtmlNode.spoofScript] }
      else d

/-- Number of copies of the override script block in the document. -/
def spoofCount (d : SoupDoc) : Nat :=
  (d.head.getD []).count HtmlNode.spoofScript +
    (d.body.getD []).count HtmlNode.spoofScript

/-- C6 fails on the code: one injection pass over an empty document yields one
override script block, and a second pass yields two — the pass is applied
unconditionally, so rewriting an already-rewritten document duplicates the
block. -/
theorem spoof_script_injected_twice :
    spoofCount (injectSpoofingScript
      { head := some [], body := some [], htmlTag := true }) = 1 ∧
    spoofCount (injectSpoofingScript (injectSpoofingScript
      { head := some [], body := some [], htmlTag := true })) = 2 := by
  decide

/-! ### Structured fetch failures
(src/app/services/proxy_service.py and src/app/services/direct_proxy.py) -/

/-- Outcome of the underlying `httpx` request inside
`ProxyService.make_request`: a response, or an exception raised during the
request (timeout, connection refusal, any error) with its message. -/
inductive UpstreamOutcome where
  | response (status : Nat) (headers : List (String × String)) (body : String)
      (finalUrl : String)
  | raised (msg : String)

/-- The result dictionary of `ProxyService.make_request`. -/
structure RequestResult where
  status : Nat
  headers : List (String × String)
  body : String
  url : String
deriving DecidableEq

/-- `ProxyService.make_request` (src/app/services/proxy_service.py lines
81-121): the entire body runs inside `try`; the `except` clause converts any
exception into the structured 500 result `Proxy error: <cause>` instead of
propagating it. -/
def makeRequest (url : String) (outcome : UpstreamOutcome) : RequestResult :=
  match outcome with
  | .response status headers body finalUrl =>
    { status := status, headers := headers, body := body, url := finalUrl }
  | .raised msg =>
    { status := 500, headers := [], body := "Proxy error: " ++ msg, url := url }

/-- Outcome of the request inside `DirectProxyService.fetch_page`: a response
with its content type, an `httpx.TimeoutException`, or any other raised
exception. -/
inductive FetchOutcome where
  | response (contentType : String) (status : Nat) (bodyText : String)
  | timeoutRaised
  | raised (msg : String)

/-- The result dictionary of `DirectProxyService.fetch_page`. -/
structure FetchResult where
  success : Bool
  content : String
  contentType : Option String
  statusCode : Option Nat
  error : Option String
deriving DecidableEq

/-- `DirectProxyService._error_page` (src/app/services/direct_proxy.py lines
662-680); whitespace and the style block elided. -/
def errorPage (title message : String) : String :=
  "<!DOCTYPE html><html><head><title>" ++ title ++
    "</title></head><body><h1 class=\"error\">" ++ title ++ "</h1><p>" ++ message ++
    "</p><a href=\"/\">Go Back</a></body></html>"

/-- `DirectProxyService.fetch_page` (src/app/services/direct_proxy.py lines
559-660): the whole fetch runs inside `try`; `httpx.TimeoutException` and any
other exception are converted to `success: False` results carrying an error
string and an error page.  The HTML rewriting applied to `text/html`
responses is the concern of other claims and is abstracted as the returned
content. -/
def fetchPage (url : String) (outcome : FetchOutcome) : FetchResult :=
  match outcome with
  | .response ct status bodyText =>
    { success := true, content := bodyText, contentType := some ct,
      statusCode := some status, error := none }
  | .timeoutRaised =>
    { success := false,
      content := errorPage "Request Timeout" ("The request to " ++ url ++ " timed out."),
      contentType := none, statusCode := none, error := some "Request timed out" }
  | .raised msg =>
    { success := false,
      content := errorPage "Error" ("Failed to fetch " ++ url ++ ": " ++ msg),
      contentType := none, statusCode := none, error := some msg }

/-- C8: for every URL and every upstream behaviour, the fetch operations
return a structured result rather than propagating the exception:
`make_request` maps any raised exception to a 500 result with a
human-readable cause, `fetch_page` maps timeouts and any other exception to
`success: False` results with an error string and an error page, and every
`fetch_page` outcome is either a success or carries an error string. -/
theorem fetch_failures_structured (url msg : String) :
    makeRequest url (UpstreamOutcome.raised msg) =
      { status := 500, headers := [], body := "Proxy error: " ++ msg, url := url } ∧
    (fetchPage url (FetchOutcome.raised msg)).success = false ∧
    (fetchPage url (FetchOutcome.raised msg)).error = some msg ∧
    (fetchPage url (FetchOutcome.raised msg)).content =
      errorPage "Error" ("Failed to fetch " ++ url ++ ": " ++ msg) ∧
    (fetchPage url FetchOutcome.timeoutRaised).success = false ∧
    (fetchPage url FetchOutcome.timeoutRaised).error = some "Request timed out" ∧
    (∀ o : FetchOutcome, (fetchPage url o).success = true ∨ (fetchPage url o).error.isSome) := by
  refine ⟨rfl, rfl, rfl, rfl, rfl, rfl, ?_⟩
  intro o
  cases o with
  | response ct status bodyText => exact Or.inl rfl
  | timeoutRaised => exact Or.inr rfl
  | raised msg2 => exact Or.inr rfl

/-! ### Undecodable-compression retry (src/app.py, `proxy_page`) -/

/-- Python's `sub in s` substring test. -/
def strContains (s sub : String) : Bool :=
  (List.range (s.data.length + 1)).any (fun i => sub.data.isPrefixOf (s.data.drop i))

/-- A fetched upstream response as the brotli-handling block of `proxy_page`
observes it: the declared `content-encoding` and the raw body bytes. -/
structure UpstreamResp where
  contentEncoding : String
  content : List Nat
deriving DecidableEq

/-- The `Accept-Encoding` of `get_spoofed_headers` (src/app.py line 103):
brotli is never requested. -/
def spoofedAcceptEncoding : String := "gzip, deflate"

/-- The brotli-decompression block of `proxy_page` (src/app.py lines
735-760).  `resp1` answers the initial request, `resp2` the retry; `brDec` is
the runtime's brotli decoder (`none` = `brotli.decompress` raises).  Returns
the `Accept-Encoding` value of every request actually sent, the response the
rest of the handler proceeds with, and its effective content encoding.  On a
failed decompression the request is re-sent exactly once, with
`Accept-Encoding` set to `gzip, deflate` (line 757) — no second retry exists
in the code. -/
def brotliFetch (resp1 resp2 : UpstreamResp) (brDec : List Nat → Option (List Nat)) :
    List String × UpstreamResp × String :=
  if strContains resp1.contentEncoding "br" then
    match brDec resp1.content with
    | some d =>
      ([spoofedAcceptEncoding], { resp1 with content := d }, "identity")
    | none =>
      ([spoofedAcceptEncoding, "gzip, deflate"], resp2, resp2.contentEncoding)
  else
    ([spoofedAcceptEncoding], resp1, resp1.contentEncoding)

/-- The garbled-content heuristic of `proxy_page` (src/app.py line 773): more
than 100 bytes above 127 among the first 200. -/
def garbled (text : List Nat) : Bool :=
  100 < ((text.take 200).filter (fun c => 127 < c)).length

/-- The content-error branch of `proxy_page` (src/app.py lines 775-796);
whitespace and the style block elided. -/
def contentErrorPage (url : String) : String :=
  "<!DOCTYPE html><html><head><title>Content Error</title></head><body>" ++
    "<h1>Proxy Browser V2</h1><div class=\"error\"><h3>Content Encoding Error</h3>" ++
    "<p>The website returned compressed content that couldn't be decoded.</p>" ++
    "<p><strong>URL:</strong> " ++ url ++ "</p>" ++
    "<p>Try refreshing or use a different site.</p></div></body></html>"

/-- What `proxy_page` surfaces for an HTML response after the brotli block:
the content-error page when the text is garbled, else the body (the further
IP/location rewriting is other claims' concern). -/
inductive PageOutcome where
  | undecodable (page : String)
  | contentOk (bytes : List Nat)
deriving DecidableEq

/-- The garbled check applied to the response the handler proceeds with
(src/app.py lines 772-796). -/
def proxyPageResult (resp : UpstreamResp) (url : String) : PageOutcome :=
  if garbled resp.content then .undecodable (contentErrorPage url) else .contentOk resp.content

/-- C9: at most two requests are ever sent (so at most one automatic retry);
the retry happens exactly when the response declares a compression scheme
(`br`) the runtime fails to decode; no request ever asks for brotli
(`Accept-Encoding: gzip, deflate` on the initial request and on the retry);
and after the single retry the handler proceeds with the retry response — a
still-garbled body then surfaces the content-error page with no further
retry. -/
theorem undecodable_compression_retry (resp1 resp2 : UpstreamResp) (url : String)
    (brDec : List Nat → Option (List Nat)) :
    (brotliFetch resp1 resp2 brDec).1.length ≤ 2 ∧
    ((brotliFetch resp1 resp2 brDec).1.length = 2 ↔
      strContains resp1.contentEncoding "br" = true ∧ brDec resp1.content = none) ∧
    (∀ ae ∈ (brotliFetch resp1 resp2 brDec).1, ae = "gzip, deflate") ∧
    (strContains resp1.contentEncoding "br" = true → brDec resp1.content = none →
      (brotliFetch resp1 resp2 brDec).2.1 = resp2 ∧
      (garbled resp2.content = true →
        proxyPageResult (brotliFetch resp1 resp2 brDec).2.1 url =
          .undecodable (contentErrorPage url))) := by
  by_cases hbr : strContains resp1.contentEncoding "br" = true
  · cases hdec : brDec resp1.content with
    | some d =>
      have heq : brotliFetch resp1 resp2 brDec =
          ([spoofedAcceptEncoding], { resp1 with content := d }, "identity") := by
        unfold brotliFetch
        rw [if_pos hbr, hdec]
      rw [heq]
      refine ⟨by simp, ?_, ?_, ?_⟩
      · simp only [List.length_singleton]
        constructor
        · intro h
          omega
        · rintro ⟨-, hnone⟩
          exact Option.noConfusion hnone
      · intro ae hae
        simp only [List.mem_singleton] at hae
        rw [hae]
        rfl
      · intro _ hnone
        exact Option.noConfusion hnone
    | none =>
      have heq : brotliFetch resp1 resp2 brDec =
          ([spoofedAcceptEncoding, "gzip, deflate"], resp2, resp2.contentEncoding) := by
        unfold brotliFetch
        rw [if_pos hbr, hdec]
      rw [heq]
      refine ⟨by simp, ?_, ?_, ?_⟩
      · simp [hbr]
      · intro ae hae
        rcases List.mem_cons.mp hae with h | h
        · rw [h]
          rfl
        · simp only [List.mem_singleton] at h
          rw [h]
      · intro _ _
        refine ⟨rfl, ?_⟩
        intro hg
        unfold proxyPageResult
        rw [if_pos hg]
  · have heq : brotliFetch resp1 resp2 brDec =
        ([spoofedAcceptEncoding], resp1, resp1.contentEncoding) := by
      unfold brotliFetch
      rw [if_neg hbr]
    rw [heq]
    refine ⟨by simp, ?_, ?_, ?_⟩
    · simp only [List.length_singleton]
      constructor
      · intro h
        omega
      · rintro ⟨hb, -⟩
        exact absurd hb hbr
    · intro ae hae
      simp only [List.mem_singleton] at hae
      rw [hae]
      rfl
    · intro hb _
      exact absurd hb hbr

/-- Witness for C9 at concrete inputs: a `br`-encoded first response the
decoder rejects triggers exactly one retry without brotli, and a garbled
retry body surfaces the content-error page. -/
theorem undecodable_compression_retry_witness :
    (brotliFetch ⟨"br", [0]⟩ ⟨"br", List.replicate 200 255⟩ (fun _ => none)).1 =
      ["gzip, deflate", "gzip, deflate"] ∧
    (brotliFetch ⟨"br", [0]⟩ ⟨"br", List.replicate 200 255⟩ (fun _ => none)).2.1 =
      ⟨"br", List.replicate 200 255⟩ ∧
    proxyPageResult
      (brotliFetch ⟨"br", [0]⟩ ⟨"br", List.replicate 200 255⟩ (fun _ => none)).2.1 "u" =
      .undecodable (contentErrorPage "u") := by
  have h := undecodable_compression_retry ⟨"br", [0]⟩ ⟨"br", List.replicate 200 255⟩ "u"
    (fun _ => none)
  obtain ⟨h2, hgarb⟩ := h.2.2.2 (by decide) rfl
  exact ⟨rfl, h2, by rw [h2]; exact hgarb (by decide)⟩

end ProxyBrowser
